import Mathlib

/-!
Verification of the tradingview_ws repository: a shallow embedding of the
tick-to-OHLCV candle aggregation pipeline from src/main.py and
src/live_chart_app.py, together with proofs of the specification claims.

Modelling conventions:
* Python floats (prices, volumes, backoff delays) are modelled as exact
  rationals; max, min and comparisons agree with IEEE behaviour on finite
  non-NaN values, which is the only regime the claims speak about.
* Epoch timestamps are natural numbers of seconds.  The host timezone used
  by datetime.fromtimestamp is modelled as a seconds-east-of-UTC offset
  tzOffset, threaded through Config (0 models UTC, 19800 models IST).
* Strings on the wire are modelled as lists of characters; the payloads the
  program actually frames are produced by json.dumps with ensure_ascii, so
  the character count coincides with the byte count.
-/

/-- One OHLCV candle, as stored in the Python candle dicts.  The field
timestamp_ist models the optional timestamp_ist key that the /candles
handler of src/main.py adds in place to stored dicts; the formatted IST
string is represented by the IST-shifted epoch value, which determines it
injectively.  Aggregator-made candles have timestamp_ist = none because
handle_data never sets that key. -/
structure Candle where
  timestamp : Nat
  opn : ℚ
  high : ℚ
  low : ℚ
  close : ℚ
  volume : ℚ
  timestamp_ist : Option Nat := none
deriving DecidableEq, Repr

/-- Candle record as serialized for JS clients by format_candle_for_client
of src/live_chart_app.py.  ts_ist models the formatted IST string by the
IST-shifted epoch seconds. -/
structure ClientCandle where
  ts : Nat
  opn : ℚ
  high : ℚ
  low : ℚ
  close : ℚ
  volume : ℚ
  ts_ist : Nat
deriving DecidableEq, Repr

/-- The quote values object v of a qsd message: values.get("lp") and
values.get("volume", 0).  A missing or null JSON field is none. -/
structure QuoteValues where
  lp : Option ℚ
  volume : Option ℚ
deriving DecidableEq, Repr

/-- The second parameter of a qsd message: payload.get("n") and
payload.get("v", {}). -/
structure QuotePayload where
  n : String
  v : QuoteValues
deriving DecidableEq, Repr

/-- A decoded JSON message as inspected by handle_data: data.get("m") and
data.get("p", []).  List entries are Option QuotePayload so that a null or
non-dict entry (falsy payload) is representable as none. -/
structure TickData where
  m : String
  p : List (Option QuotePayload)
deriving DecidableEq, Repr

/-- Module-level configuration shared by both variants: the subscribed
symbol, timeframe_minute, max_candle_window_len, plus the host timezone
offset implicit in datetime.fromtimestamp. -/
structure Config where
  symbol : String
  timeframe_minute : Nat
  tzOffset : Nat
  max_candle_window_len : Nat
deriving DecidableEq, Repr

/-- The module-level mutable aggregation state: candle_window (a deque of
finalized candles, oldest first), current_candle and current_interval. -/
structure AggState where
  candle_window : List Candle
  current_candle : Option Candle
  current_interval : Option Nat
deriving DecidableEq, Repr

/-- The state at process start: empty window, no candle, no interval. -/
def initState : AggState := { candle_window := [], current_candle := none, current_interval := none }

/-- IST is UTC+05:30, that is 19800 seconds. -/
def IST_OFFSET : Nat := 19800

/-- get_chart_timeframe_interval from src/main.py lines 88-93 (identical in
src/live_chart_app.py lines 76-81).  datetime.fromtimestamp(t) yields the
local wall clock t + tzOffset; replace(minute = minute - minute % tf,
second = 0, microsecond = 0) keeps the hour part and floors the minute;
timestamp() converts the floored wall clock back to epoch seconds. -/
def get_chart_timeframe_interval (tf tzOffset t : Nat) : Nat :=
  let wall := t + tzOffset
  let minute := wall / 60 % 60
  let flooredWall := wall / 3600 * 3600 + (minute - minute % tf) * 60
  flooredWall - tzOffset

/-- deque(maxlen = n).append c: append on the right, dropping from the left
whenever the length exceeds the bound. -/
def pushCandle (maxLen : Nat) (w : List Candle) (c : Candle) : List Candle :=
  let w2 := w ++ [c]
  if maxLen < w2.length then w2.drop (w2.length - maxLen) else w2

/-- The candle dict built when a tick opens a new bucket:
open = high = low = close = price, volume = volume if volume else 0.0. -/
def new_candle_of (interval : Nat) (price volume : ℚ) : Candle :=
  { timestamp := interval, opn := price, high := price, low := price, close := price,
    volume := if volume ≠ 0 then volume else 0 }

/-- The in-place update of the in-progress candle for a tick in the same
bucket: high = max, low = min, close = price, volume replaced only when the
tick volume is truthy. -/
def update_candle (c : Candle) (price volume : ℚ) : Candle :=
  { c with high := max c.high price, low := min c.low price, close := price,
           volume := if volume ≠ 0 then volume else c.volume }

/-- format_candle_for_client from src/live_chart_app.py lines 106-125:
ts in milliseconds, OHLC passed through float(), volume clamped to 0 when
above 1e10 or negative, plus the IST wall-clock representation. -/
def format_candle_for_client (c : Candle) : ClientCandle :=
  let vol := if c.volume > 10 ^ 10 ∨ c.volume < 0 then 0 else c.volume
  { ts := c.timestamp * 1000, opn := c.opn, high := c.high, low := c.low,
    close := c.close, volume := vol, ts_ist := c.timestamp + IST_OFFSET }

/-- The push_to_clients payloads emitted by handle_data of
src/live_chart_app.py: a finalized candle, the in-progress candle copy and
a bare ticker with the price and int(time.time() * 1000). -/
inductive Event where
  | candle_final (c : ClientCandle)
  | candle_update (c : ClientCandle)
  | ticker (price : ℚ) (tsMs : Nat)
deriving DecidableEq, Repr

/-- TradingViewWS.handle_data, src/main.py lines 195-239 and
src/live_chart_app.py lines 206-264.  Both variants perform the identical
state transition; the returned event list is the sequence of
push_to_clients calls of the live_chart_app variant (src/main.py emits
nothing).  Guard clauses: wrong method, short p list (IndexError is caught
by the enclosing try), falsy payload, symbol mismatch and missing price all
leave the state unchanged.  now is the wall clock time time.time() read
inside the call. -/
def handle_data (cfg : Config) (st : AggState) (data : TickData) (now : Nat) :
    AggState × List Event :=
  if data.m ≠ "qsd" then (st, [])
  else
    match data.p[1]? with
    | none => (st, [])
    | some none => (st, [])
    | some (some payload) =>
      if payload.n ≠ cfg.symbol then (st, [])
      else
        match payload.v.lp with
        | none => (st, [])
        | some price =>
          let volume : ℚ := payload.v.volume.getD 0
          let interval := get_chart_timeframe_interval cfg.timeframe_minute cfg.tzOffset now
          if st.current_interval = some interval then
            match st.current_candle with
            | some c =>
              let c2 := update_candle c price volume
              ({ st with current_candle := some c2 },
               [Event.candle_update (format_candle_for_client c2),
                Event.ticker price (now * 1000)])
            | none => (st, [])
          else
            let newC := new_candle_of interval price volume
            let w2 := match st.current_candle with
              | some c => pushCandle cfg.max_candle_window_len st.candle_window c
              | none => st.candle_window
            let evFinal := match st.current_candle with
              | some c => [Event.candle_final (format_candle_for_client c)]
              | none => []
            ({ candle_window := w2, current_candle := some newC,
               current_interval := some interval },
             evFinal ++ [Event.candle_update (format_candle_for_client newC),
                         Event.ticker price (now * 1000)])

/-- A well-formed qsd message for the subscribed symbol, as sent by the
quote server: p[0] is the quote session string (opaque, modelled none),
p[1] the payload. -/
def mkQsd (symbol : String) (lp volume : Option ℚ) : TickData :=
  { m := "qsd", p := [none, some { n := symbol, v := { lp := lp, volume := volume } }] }

/-- One observed tick: a price, an optional volume and the wall clock time
at which handle_data processes it. -/
structure Tick where
  price : ℚ
  volume : Option ℚ
  now : Nat
deriving DecidableEq, Repr

/-- The state transition of one valid tick (events discarded). -/
def handle_step (cfg : Config) (st : AggState) (t : Tick) : AggState :=
  (handle_data cfg st (mkQsd cfg.symbol (some t.price) t.volume) t.now).1

/-- Folding a whole tick sequence through handle_data from process start. -/
def foldTicks (cfg : Config) (ticks : List Tick) : AggState :=
  ticks.foldl (handle_step cfg) initState

/-- Decimal digit character, as produced by Python str() on a digit. -/
def digitChar10 (n : Nat) : Char := Char.ofNat (48 + n)

/-- Decimal representation of a natural number, mirroring Python str(n). -/
def natToChars (n : Nat) : List Char :=
  if h : n < 10 then [digitChar10 n]
  else natToChars (n / 10) ++ [digitChar10 (n % 10)]
decreasing_by exact Nat.div_lt_self (by omega) (by omega)

/-- Python int() applied to the length field: succeeds exactly on nonempty
all-digit strings (the only shape a well-formed frame carries) and returns
the decimal value. -/
def parseNatDigits (s : List Char) : Option Nat :=
  if s ≠ [] ∧ s.all (fun c => c.isDigit) then
    some (s.foldl (fun a c => a * 10 + (c.toNat - 48)) 0)
  else none

/-- The literal frame marker. -/
def sepChars : List Char := ['~', 'm', '~']

/-- str.partition("~m~") restricted to the two components the decode loop
uses: the text before the first marker and the text after it (the whole
string and an empty tail when the marker is absent, as in Python). -/
def partitionSep (s : List Char) : List Char × List Char :=
  match s with
  | [] => ([], [])
  | c :: rest =>
    if (c :: rest).take 3 = sepChars then ([], rest.drop 2)
    else
      let r := partitionSep rest
      (c :: r.1, r.2)

/-- The frame-envelope builder of TradingViewWS.send, src/main.py lines
249-258: "~m~{}~m~{}".format(len(msg), msg). -/
def encodeFrame (payload : List Char) : List Char :=
  sepChars ++ natToChars payload.length ++ sepChars ++ payload

/-- The chunk loop of TradingViewWS.on_message, src/main.py lines 167-191:
while the buffer starts with ~m~, strip the marker, partition at the next
marker, parse the length, slice out that many characters as one chunk and
continue; a length parse failure aborts.  Returns the chunk sequence and
the unconsumed remainder at loop exit. -/
def decodeFrames (msg : List Char) : List (List Char) × List Char :=
  if h : msg.take 3 = sepChars then
    let rest := msg.drop 3
    let pr := partitionSep rest
    match parseNatDigits pr.1 with
    | none => ([], pr.2)
    | some n =>
      let d := decodeFrames (pr.2.drop n)
      (pr.2.take n :: d.1, d.2)
  else ([], msg)
termination_by msg.length
decreasing_by
  have hlen : 3 ≤ msg.length := by
    have h3 := congrArg List.length h
    simp [sepChars] at h3
    omega
  have hp : ∀ u : List Char, (partitionSep u).2.length ≤ u.length := by
    intro u
    induction u with
    | nil => simp [partitionSep]
    | cons c rest ih =>
      simp only [partitionSep]
      split
      · simp only [List.length_drop, List.length_cons]
        omega
      · simp only [List.length_cons]
        omega
  have h2 := hp (msg.drop 3)
  simp only [List.length_drop] at h2 ⊢
  omega

/-- Heartbeat classification: chunk.startswith("~h~"). -/
def isHeartbeat (chunk : List Char) : Bool := chunk.take 3 = ['~', 'h', '~']

/-- One pass of the reconnect loop body of ws_connect_loop, src/main.py
lines 633-667 (identically src/live_chart_app.py lines 846-875): after
run_forever returns, whether the attempt had opened successfully or not,
backoff becomes min(backoff * 2, 300).  The Bool argument records whether
the attempt reached a successful Open; the source never consults it. -/
def reconnect_step (backoff : ℚ) (_opened : Bool) : ℚ :=
  min (backoff * 2) 300

/-- The backoff value after a sequence of connection attempts, starting
from the initial backoff = 1.0. -/
def backoff_after (attempts : List Bool) : ℚ :=
  attempts.foldl reconnect_step 1

/-- The sleep computed before a reconnect: backoff plus the sampled
uniform(0, min(5.0, backoff)) jitter u. -/
def sleep_for (backoff u : ℚ) : ℚ := backoff + u

/-- One SSE subscriber: a bounded queue.Queue holding serialized payload
strings.  cap is the maxsize it was constructed with (128 in the source). -/
structure ClientQueue where
  buf : List String
  cap : Nat
deriving DecidableEq, Repr

/-- queue.Queue.put_nowait: appends unless the queue is bounded and full,
in which case queue.Full is raised (and push_to_clients drops the item). -/
def put_nowait (q : ClientQueue) (payload : String) : ClientQueue :=
  if 0 < q.cap ∧ q.cap ≤ q.buf.length then q
  else { q with buf := q.buf ++ [payload] }

/-- push_to_clients, src/live_chart_app.py lines 84-103: enqueue the
payload on every registered client queue, dropping it per-queue on
queue.Full.  The exception-removal branch is unreachable for put_nowait,
whose only failure is queue.Full, so the registry is preserved. -/
def push_to_clients (queues : List ClientQueue) (payload : String) : List ClientQueue :=
  queues.map (fun q => put_nowait q payload)

/-- The logical read-time sequence: window contents (oldest first) plus the
in-progress candle, as built by both snapshot handlers. -/
def mergedCandles (st : AggState) : List Candle :=
  st.candle_window ++ (match st.current_candle with | some c => [c] | none => [])

/-- The in-place mutation c["timestamp_ist"] = strftime(...) performed by
the /candles handler on each (shared) candle dict; the formatted string is
modelled by the IST-shifted epoch value. -/
def addIst (c : Candle) : Candle := { c with timestamp_ist := some (c.timestamp + IST_OFFSET) }

/-- The /candles response body: meta plus the stamped candles newest
first. -/
structure CandlesResponse where
  symbol : String
  timeframe : Nat
  values : List Candle
deriving DecidableEq, Repr

/-- get_candle_window, src/main.py lines 338-369.  list(candle_window)
copies the deque but shares the candle dicts, so setting timestamp_ist
mutates the stored candles (and current_candle) in place; the second
component is the module state after the request. -/
def get_candle_window (cfg : Config) (st : AggState) : CandlesResponse × AggState :=
  let candles := (mergedCandles st).map addIst
  let st2 : AggState :=
    { candle_window := st.candle_window.map addIst,
      current_candle := st.current_candle.map addIst,
      current_interval := st.current_interval }
  ({ symbol := cfg.symbol, timeframe := cfg.timeframe_minute, values := candles.reverse }, st2)

/-- Ordering used by payload.sort(key = lambda x: x["ts"]). -/
def tsLe (a b : ClientCandle) : Bool := a.ts ≤ b.ts

/-- prices_snapshot, src/live_chart_app.py lines 776-787: format every
candle of the merged view and sort by ts.  It builds fresh records and
never writes to the aggregator state. -/
def prices_snapshot (st : AggState) : List ClientCandle :=
  (((mergedCandles st).map format_candle_for_client).mergeSort tsLe)

/-- The bucket assigned to a tick by handle_data. -/
def tickInterval (cfg : Config) (t : Tick) : Nat :=
  get_chart_timeframe_interval cfg.timeframe_minute cfg.tzOffset t.now

/-- The persistent payload of a candle dict: every key handle_data ever
writes.  Used to express which fields a request handler leaves intact. -/
def candle_data (c : Candle) : Nat × ℚ × ℚ × ℚ × ℚ × ℚ :=
  (c.timestamp, c.opn, c.high, c.low, c.close, c.volume)

/-- The volume accumulator of the in-progress candle after folding a tick
list, starting from candle c. -/
def updFold (c : Candle) (ts : List Tick) : Candle :=
  ts.foldl (fun a t => update_candle a t.price (t.volume.getD 0)) c

/-- Invariant of the aggregation state after processing ticks whose wall
clock times never exceeded n: the window is bounded by the configured
capacity and strictly increasing in period starts, all below the
in-progress candle, current_interval mirrors the in-progress period start,
which is at most the bucket of n, and before the first candle the window
is empty. -/
def WInv (cfg : Config) (st : AggState) (n : Nat) : Prop :=
  st.candle_window.length ≤ cfg.max_candle_window_len
  ∧ List.Pairwise (fun a b : Candle => a.timestamp < b.timestamp) st.candle_window
  ∧ st.current_interval = st.current_candle.map Candle.timestamp
  ∧ (∀ c ∈ st.candle_window, ∀ cc : Candle, st.current_candle = some cc →
      c.timestamp < cc.timestamp)
  ∧ (∀ cc : Candle, st.current_candle = some cc →
      cc.timestamp ≤ get_chart_timeframe_interval cfg.timeframe_minute cfg.tzOffset n)
  ∧ (st.current_candle = none → st.candle_window = [])

/-- Concrete configuration used by witnesses: the default 5 minute
timeframe and window length 24 of src/main.py, on a UTC host. -/
def cfgB : Config :=
  { symbol := "S", timeframe_minute := 5, tzOffset := 0, max_candle_window_len := 24 }

/-- Concrete ticks used by witnesses. -/
def tickA : Tick := { price := 10, volume := some 3, now := 100 }

def tickB : Tick := { price := 12, volume := none, now := 250 }

def tickC : Tick := { price := 7, volume := some 4, now := 610 }

/-!  Theorems.  Each claim of the specification gets one theorem (plus a
counterexample where the claim as stated fails on the code), preceded by
helper lemmas. -/

section Helpers

theorem handle_data_valid_shape (cfg : Config) (st : AggState) (p : ℚ) (v : Option ℚ)
    (now : Nat) :
    handle_data cfg st (mkQsd cfg.symbol (some p) v) now =
      (if st.current_interval = some (get_chart_timeframe_interval cfg.timeframe_minute cfg.tzOffset now) then
        match st.current_candle with
        | some c =>
          ({ st with current_candle := some (update_candle c p (v.getD 0)) },
           [Event.candle_update (format_candle_for_client (update_candle c p (v.getD 0))),
            Event.ticker p (now * 1000)])
        | none => (st, [])
      else
        let interval := get_chart_timeframe_interval cfg.timeframe_minute cfg.tzOffset now
        let newC := new_candle_of interval p (v.getD 0)
        ({ candle_window :=
             match st.current_candle with
             | some c => pushCandle cfg.max_candle_window_len st.candle_window c
             | none => st.candle_window,
           current_candle := some newC, current_interval := some interval },
         (match st.current_candle with
          | some c => [Event.candle_final (format_candle_for_client c)]
          | none => []) ++
           [Event.candle_update (format_candle_for_client newC), Event.ticker p (now * 1000)])) := by
  simp only [handle_data, mkQsd]
  norm_num

theorem handle_step_update (cfg : Config) (st : AggState) (t : Tick) (c : Candle)
    (hi : st.current_interval = some (tickInterval cfg t))
    (hc : st.current_candle = some c) :
    handle_step cfg st t =
      { st with current_candle := some (update_candle c t.price (t.volume.getD 0)) } := by
  simp only [handle_step, handle_data_valid_shape, tickInterval] at *
  rw [if_pos hi, hc]

theorem handle_step_new (cfg : Config) (st : AggState) (t : Tick)
    (hi : ¬ st.current_interval = some (tickInterval cfg t)) :
    handle_step cfg st t =
      { candle_window :=
          match st.current_candle with
          | some c => pushCandle cfg.max_candle_window_len st.candle_window c
          | none => st.candle_window,
        current_candle := some (new_candle_of (tickInterval cfg t) t.price (t.volume.getD 0)),
        current_interval := some (tickInterval cfg t) } := by
  simp only [handle_step, handle_data_valid_shape, tickInterval] at *
  rw [if_neg hi]

theorem handle_step_fresh (cfg : Config) (t : Tick) :
    handle_step cfg initState t =
      { candle_window := [],
        current_candle := some (new_candle_of (tickInterval cfg t) t.price (t.volume.getD 0)),
        current_interval := some (tickInterval cfg t) } := by
  rw [handle_step_new cfg initState t (by simp [initState])]
  simp [initState]

end Helpers

/-- C10: every candle serialized for a downstream client carries
ts = stored timestamp times 1000 milliseconds; the volume field is 0 when
the stored volume is negative or exceeds 1e10 and is the stored volume
otherwise; the OHLC fields pass through unchanged.  The serializer builds a
fresh record, so the stored candle is untouched. -/
theorem format_candle_for_client_spec :
    ∀ c : Candle,
      (format_candle_for_client c).ts = c.timestamp * 1000
      ∧ ((c.volume < 0 ∨ 10 ^ 10 < c.volume) → (format_candle_for_client c).volume = 0)
      ∧ (0 ≤ c.volume → c.volume ≤ 10 ^ 10 → (format_candle_for_client c).volume = c.volume)
      ∧ (format_candle_for_client c).opn = c.opn
      ∧ (format_candle_for_client c).high = c.high
      ∧ (format_candle_for_client c).low = c.low
      ∧ (format_candle_for_client c).close = c.close := by
  intro c
  refine ⟨rfl, ?_, ?_, rfl, rfl, rfl, rfl⟩
  · intro h
    simp only [format_candle_for_client]
    rw [if_pos]
    rcases h with h | h
    · exact Or.inr h
    · exact Or.inl h
  · intro h1 h2
    simp only [format_candle_for_client]
    rw [if_neg]
    rw [not_or]
    exact ⟨not_lt.2 h2, not_lt.2 h1⟩

/-- Witness for C10: a candle with negative stored volume serializes with
volume 0. -/
theorem format_candle_for_client_spec_witness :
    ((-3 : ℚ) < 0 ∨ (10 : ℚ) ^ 10 < -3)
    ∧ (format_candle_for_client
        { timestamp := 2, opn := 1, high := 2, low := 0, close := 1, volume := -3 }).volume = 0 :=
  ⟨Or.inl (by norm_num), (format_candle_for_client_spec _).2.1 (Or.inl (by norm_num))⟩

/-- C9: publishing delivers the payload to every registered queue with free
capacity and leaves a saturated queue untouched (the event is dropped for
that subscriber only); the registry itself is preserved, so no subscriber
is affected by another one being full, and the total function never blocks
or raises. -/
theorem push_to_clients_spec :
    ∀ (qs : List ClientQueue) (payload : String),
      (push_to_clients qs payload).length = qs.length
      ∧ ∀ (i : Nat) (h : i < qs.length),
          ((0 < qs[i].cap ∧ qs[i].cap ≤ qs[i].buf.length) →
            (push_to_clients qs payload)[i]? = some qs[i])
          ∧ (qs[i].buf.length < qs[i].cap →
            (push_to_clients qs payload)[i]? =
              some { buf := qs[i].buf ++ [payload], cap := qs[i].cap }) := by
  intro qs payload
  refine ⟨by simp [push_to_clients], ?_⟩
  intro i h
  constructor
  · intro hfull
    simp [push_to_clients, List.getElem?_eq_getElem h, put_nowait, hfull]
  · intro hsp
    have hnf : ¬(0 < qs[i].cap ∧ qs[i].cap ≤ qs[i].buf.length) := by omega
    simp [push_to_clients, List.getElem?_eq_getElem h, put_nowait, hnf]

/-- Witness for C9: with a saturated first queue and a healthy second one,
the publish drops the payload for the first subscriber only and the second
receives it. -/
theorem push_to_clients_spec_witness :
    (0 < 1 ∧ 1 ≤ (["a"] : List String).length)
    ∧ (push_to_clients [{ buf := ["a"], cap := 1 }, { buf := [], cap := 2 }] "x")[0]? =
        some { buf := ["a"], cap := 1 }
    ∧ (push_to_clients [{ buf := ["a"], cap := 1 }, { buf := [], cap := 2 }] "x")[1]? =
        some { buf := ["x"], cap := 2 } := by
  refine ⟨by norm_num, ?_, ?_⟩
  · exact ((push_to_clients_spec [{ buf := ["a"], cap := 1 }, { buf := [], cap := 2 }] "x").2
      0 (by norm_num)).1 (by norm_num)
  · have h := ((push_to_clients_spec [{ buf := ["a"], cap := 1 }, { buf := [], cap := 2 }] "x").2
      1 (by norm_num)).2 (by norm_num)
    simpa using h

/-- C5: a message whose method is not qsd, or whose payload names a
different symbol, or whose values carry no price, leaves the whole
aggregator state unchanged and emits no event. -/
theorem handle_data_noop_spec :
    ∀ (cfg : Config) (st : AggState) (data : TickData) (now : Nat),
      (data.m ≠ "qsd"
        ∨ (∀ pl : QuotePayload, data.p[1]? = some (some pl) → pl.n ≠ cfg.symbol)
        ∨ (∀ pl : QuotePayload, data.p[1]? = some (some pl) → pl.v.lp = none)) →
      handle_data cfg st data now = (st, []) := by
  intro cfg st data now h
  by_cases hm : data.m ≠ "qsd"
  · simp [handle_data, hm]
  · rcases hp : data.p[1]? with _ | op
    · simp [handle_data, hp]
    · rcases op with _ | pl
      · simp [handle_data, hp]
      · rcases h with h | h | h
        · exact absurd h hm
        · simp [handle_data, hp, h pl hp]
        · simp [handle_data, hp, h pl hp]

/-- Witness for C5: a message with method du is a no-op from the initial
state. -/
theorem handle_data_noop_spec_witness :
    handle_data { symbol := "S", timeframe_minute := 5, tzOffset := 0, max_candle_window_len := 24 }
      initState { m := "du", p := [] } 7 = (initState, []) :=
  handle_data_noop_spec _ _ _ _ (Or.inl (by decide))

/-- Counterexample for C7: after a single successful Open whose connection
later closes, the loop doubles the backoff to 2.0 instead of resetting it
to the base delay 1.0, because the update after run_forever never consults
whether the attempt had opened. -/
theorem backoff_reset_counterexample :
    backoff_after [true] = 2 ∧ backoff_after [true] ≠ 1 := by
  have h : backoff_after [true] = 2 := by
    simp only [backoff_after, List.foldl, reconnect_step]
    norm_num
  exact ⟨h, by rw [h]; norm_num⟩

/-- C7 as amended: across attempts the backoff is monotonically
non-decreasing, starts at 1, doubles up to the 300 second ceiling, and the
added uniform jitter is bounded by min(5, backoff), hence by 5,
independently of the backoff; but the backoff never resets after a
successful Open, it keeps its doubled value. -/
theorem backoff_monotone_bounded :
    (∀ attempts : List Bool, 1 ≤ backoff_after attempts ∧ backoff_after attempts ≤ 300)
    ∧ (∀ (attempts : List Bool) (o : Bool),
        backoff_after attempts ≤ backoff_after (attempts ++ [o]))
    ∧ (∀ (attempts : List Bool) (o : Bool),
        backoff_after (attempts ++ [o]) = min (backoff_after attempts * 2) 300)
    ∧ (∀ b u : ℚ, 0 ≤ u → u ≤ min 5 b → b ≤ sleep_for b u ∧ sleep_for b u ≤ b + 5) := by
  have key : ∀ (l : List Bool) (b : ℚ), 1 ≤ b → b ≤ 300 →
      1 ≤ l.foldl reconnect_step b ∧ l.foldl reconnect_step b ≤ 300 := by
    intro l
    induction l with
    | nil => intro b h1 h2; exact ⟨h1, h2⟩
    | cons x xs ih =>
      intro b h1 h2
      refine ih _ ?_ ?_
      · exact le_min (by linarith) (by norm_num)
      · exact min_le_right _ _
  have happ : ∀ (l : List Bool) (o : Bool),
      backoff_after (l ++ [o]) = min (backoff_after l * 2) 300 := by
    intro l o
    simp only [backoff_after, List.foldl_append, List.foldl, reconnect_step]
  refine ⟨fun l => key l 1 le_rfl (by norm_num), ?_, happ, ?_⟩
  · intro l o
    have hb1 : 1 ≤ backoff_after l := (key l 1 le_rfl (by norm_num)).1
    have hb2 : backoff_after l ≤ 300 := (key l 1 le_rfl (by norm_num)).2
    rw [happ]
    exact le_min (by linarith) hb2
  · intro b u h0 h5
    have h5b := le_trans h5 (min_le_left 5 b)
    exact ⟨by simp only [sleep_for]; linarith, by simp only [sleep_for]; linarith⟩

/-- Witness for the amended C7 at concrete inputs: bounds and monotonicity
after two attempts, and the jitter bound at backoff 2 with jitter 1. -/
theorem backoff_monotone_bounded_witness :
    (1 ≤ backoff_after [false, true] ∧ backoff_after [false, true] ≤ 300)
    ∧ backoff_after [false] ≤ backoff_after [false, true]
    ∧ ((0 : ℚ) ≤ 1 ∧ (1 : ℚ) ≤ min 5 2)
    ∧ (2 ≤ sleep_for 2 1 ∧ sleep_for 2 1 ≤ 2 + 5) := by
  refine ⟨backoff_monotone_bounded.1 _, ?_,
    ⟨by norm_num, by rw [min_def]; norm_num⟩,
    backoff_monotone_bounded.2.2.2 2 1 (by norm_num) (by rw [min_def]; norm_num)⟩
  have h := backoff_monotone_bounded.2.1 [false] true
  simpa using h

/-- Counterexample for C2: with a 7 minute timeframe (an allowed value of
the TIMEFRAME_MINUTE environment variable) and a UTC host clock, the tick
at epoch second 3660 is assigned period start 3600 (the minute is floored
within its hour) while the claimed formula floor(t / 420) * 420 gives
3360. -/
theorem bucket_formula_counterexample :
    get_chart_timeframe_interval 7 0 3660 = 3600
    ∧ 3660 / (7 * 60) * (7 * 60) = 3360
    ∧ get_chart_timeframe_interval 7 0 3660 ≠ 3660 / (7 * 60) * (7 * 60) := by
  refine ⟨by decide, by decide, by decide⟩

/-- Minute flooring within the hour coincides with flooring modulo
60 * tf seconds whenever tf divides 60. -/
theorem floored_wall_eq (tf w : Nat) (htf : tf ∣ 60) :
    w / 3600 * 3600 + (w / 60 % 60 - w / 60 % 60 % tf) * 60 = w / (60 * tf) * (60 * tf) := by
  have h0 : 0 < tf := Nat.pos_of_dvd_of_pos htf (by norm_num)
  obtain ⟨k, hk⟩ := htf
  have e1 : w / 60 % 60 - w / 60 % 60 % tf = tf * (w / 60 % 60 / tf) := by
    have h := Nat.div_add_mod (w / 60 % 60) tf
    generalize hA : tf * (w / 60 % 60 / tf) = A at h ⊢
    generalize hB : w / 60 % 60 % tf = B at h ⊢
    omega
  have e2 : w / 60 / 60 = w / 3600 := by
    rw [Nat.div_div_eq_div_mul]
  have e3 : w / 60 / tf = w / (60 * tf) := by
    rw [Nat.div_div_eq_div_mul]
  have e4 : w / 60 = 60 * (w / 60 / 60) + w / 60 % 60 := (Nat.div_add_mod (w / 60) 60).symm
  have e5 : w / 60 / tf = k * (w / 60 / 60) + w / 60 % 60 / tf := by
    conv_lhs => rw [e4]
    have h60 : 60 * (w / 60 / 60) = tf * (k * (w / 60 / 60)) := by
      rw [hk]; ring
    rw [h60, Nat.mul_add_div h0]
  rw [e1, ← e3, e5, ← e2]
  have h3600 : (3600 : Nat) = 60 * (tf * k) := by rw [← hk]
  rw [h3600]
  ring

/-- C2 as amended: the period start equals
floor(t / timeframeSeconds) * timeframeSeconds provided timeframe_minute
divides 60 and the host timezone offset is a multiple of timeframeSeconds
(UTC in particular); the 5 minute examples of the claim then hold.  For
other timeframes the code floors the minute within its hour instead. -/
theorem bucket_eq_floor_of_aligned :
    ∀ (tf tzo t : Nat), tf ∣ 60 → 60 * tf ∣ tzo →
      get_chart_timeframe_interval tf tzo t = t / (60 * tf) * (60 * tf) := by
  intro tf tzo t htf ho
  obtain ⟨j, hj⟩ := ho
  have hT : 0 < 60 * tf := by
    have := Nat.pos_of_dvd_of_pos htf (by norm_num)
    positivity
  show (t + tzo) / 3600 * 3600 +
      ((t + tzo) / 60 % 60 - (t + tzo) / 60 % 60 % tf) * 60 - tzo
      = t / (60 * tf) * (60 * tf)
  rw [floored_wall_eq tf (t + tzo) htf, hj, Nat.add_mul_div_left t j hT, add_mul,
    mul_comm j (60 * tf), Nat.add_sub_cancel]

/-- Witness for the amended C2: with the 5 minute default at UTC, ticks at
epoch seconds 100 and 250 land in bucket 0 and a tick at 610 in bucket
600. -/
theorem bucket_eq_floor_of_aligned_witness :
    (5 : Nat) ∣ 60 ∧ (60 * 5 : Nat) ∣ 0
    ∧ get_chart_timeframe_interval 5 0 100 = 0
    ∧ get_chart_timeframe_interval 5 0 250 = 0
    ∧ get_chart_timeframe_interval 5 0 610 = 600 := by
  refine ⟨by decide, by decide, ?_, ?_, ?_⟩
  · rw [bucket_eq_floor_of_aligned 5 0 100 (by decide) (by decide)]
  · rw [bucket_eq_floor_of_aligned 5 0 250 (by decide) (by decide)]
  · rw [bucket_eq_floor_of_aligned 5 0 610 (by decide) (by decide)]


theorem foldl_same_bucket (cfg : Config) (i : Nat) :
    ∀ (ts : List Tick) (w : List Candle) (c : Candle),
      (∀ t ∈ ts, tickInterval cfg t = i) →
      ts.foldl (handle_step cfg)
          { candle_window := w, current_candle := some c, current_interval := some i }
        = { candle_window := w, current_candle := some (updFold c ts),
            current_interval := some i } := by
  intro ts
  induction ts with
  | nil => intro w c _; simp [updFold]
  | cons x xs ih =>
    intro w c h
    have hx : tickInterval cfg x = i := h x (List.mem_cons_self _ _)
    rw [List.foldl_cons, handle_step_update cfg _ x c (by simp [hx]) rfl]
    have hxs : ∀ t ∈ xs, tickInterval cfg t = i := fun t ht => h t (List.mem_cons_of_mem _ ht)
    show xs.foldl (handle_step cfg)
        { candle_window := w,
          current_candle := some (update_candle c x.price (x.volume.getD 0)),
          current_interval := some i } = _
    rw [ih w _ hxs]
    simp [updFold]

theorem updFold_fields (ts : List Tick) : ∀ c : Candle,
    (updFold c ts).opn = c.opn
    ∧ (updFold c ts).timestamp = c.timestamp
    ∧ (updFold c ts).high = (ts.map Tick.price).foldl max c.high
    ∧ (updFold c ts).low = (ts.map Tick.price).foldl min c.low
    ∧ (updFold c ts).close = (ts.map Tick.price).getLastD c.close := by
  induction ts with
  | nil => intro c; simp [updFold]
  | cons x xs ih =>
    intro c
    obtain ⟨h1, h2, h3, h4, h5⟩ := ih (update_candle c x.price (x.volume.getD 0))
    simp only [updFold, List.foldl_cons] at h1 h2 h3 h4 h5 ⊢
    simp only [List.map_cons, List.foldl_cons, List.getLastD_cons]
    refine ⟨?_, ?_, ?_, ?_, ?_⟩
    · rw [h1]; rfl
    · rw [h2]; rfl
    · rw [h3]; rfl
    · rw [h4]; rfl
    · rw [h5]; rfl

theorem le_foldl_max : ∀ (l : List ℚ) (a : ℚ), a ≤ l.foldl max a := by
  intro l
  induction l with
  | nil => intro a; simp
  | cons x xs ih => intro a; exact le_trans (le_max_left a x) (ih (max a x))

theorem mem_le_foldl_max : ∀ (l : List ℚ) (a b : ℚ), b ∈ l → b ≤ l.foldl max a := by
  intro l
  induction l with
  | nil => intro a b h; simp at h
  | cons x xs ih =>
    intro a b h
    rcases List.mem_cons.mp h with h | h
    · subst h; exact le_trans (le_max_right a b) (le_foldl_max xs _)
    · exact ih _ _ h

theorem foldl_min_le : ∀ (l : List ℚ) (a : ℚ), l.foldl min a ≤ a := by
  intro l
  induction l with
  | nil => intro a; simp
  | cons x xs ih => intro a; exact le_trans (ih (min a x)) (min_le_left a x)

theorem foldl_min_le_mem : ∀ (l : List ℚ) (a b : ℚ), b ∈ l → l.foldl min a ≤ b := by
  intro l
  induction l with
  | nil => intro a b h; simp at h
  | cons x xs ih =>
    intro a b h
    rcases List.mem_cons.mp h with h | h
    · subst h; exact le_trans (foldl_min_le xs _) (min_le_right a b)
    · exact ih _ _ h

/-- C1: a non-empty tick sequence falling into one timeframe bucket folds,
from process start, into an in-progress candle whose open is the first
price, whose close is the last price and whose high and low are the
maximum and minimum of all folded prices; consequently low ≤ open ≤ high
and low ≤ close ≤ high. -/
theorem same_bucket_fold_ohlc (cfg : Config) (t0 : Tick) (rest : List Tick) (i : Nat)
    (hall : ∀ t ∈ t0 :: rest, tickInterval cfg t = i) :
    ∃ c : Candle,
      (foldTicks cfg (t0 :: rest)).current_candle = some c
      ∧ c.opn = t0.price
      ∧ c.close = (rest.map Tick.price).getLastD t0.price
      ∧ c.high = (rest.map Tick.price).foldl max t0.price
      ∧ c.low = (rest.map Tick.price).foldl min t0.price
      ∧ c.low ≤ c.opn ∧ c.opn ≤ c.high ∧ c.low ≤ c.close ∧ c.close ≤ c.high := by
  have h0 : tickInterval cfg t0 = i := hall t0 (List.mem_cons_self _ _)
  have hrest : ∀ t ∈ rest, tickInterval cfg t = i :=
    fun t ht => hall t (List.mem_cons_of_mem _ ht)
  have hstate : foldTicks cfg (t0 :: rest)
      = { candle_window := [],
          current_candle :=
            some (updFold (new_candle_of i t0.price (t0.volume.getD 0)) rest),
          current_interval := some i } := by
    rw [foldTicks, List.foldl_cons, handle_step_fresh, h0,
      foldl_same_bucket cfg i rest [] _ hrest]
  obtain ⟨f1, _, f3, f4, f5⟩ := updFold_fields rest (new_candle_of i t0.price (t0.volume.getD 0))
  have g1 : (updFold (new_candle_of i t0.price (t0.volume.getD 0)) rest).opn = t0.price := by
    rw [f1]; rfl
  have g3 : (updFold (new_candle_of i t0.price (t0.volume.getD 0)) rest).high
      = (rest.map Tick.price).foldl max t0.price := by rw [f3]; rfl
  have g4 : (updFold (new_candle_of i t0.price (t0.volume.getD 0)) rest).low
      = (rest.map Tick.price).foldl min t0.price := by rw [f4]; rfl
  have g5 : (updFold (new_candle_of i t0.price (t0.volume.getD 0)) rest).close
      = (rest.map Tick.price).getLastD t0.price := by rw [f5]; rfl
  have hclose_hi : (rest.map Tick.price).getLastD t0.price
      ≤ (rest.map Tick.price).foldl max t0.price := by
    rcases List.mem_cons.mp (List.getLastD_mem_cons (rest.map Tick.price) t0.price) with h | h
    · rw [h]; exact le_foldl_max _ _
    · exact mem_le_foldl_max _ _ _ h
  have hclose_lo : (rest.map Tick.price).foldl min t0.price
      ≤ (rest.map Tick.price).getLastD t0.price := by
    rcases List.mem_cons.mp (List.getLastD_mem_cons (rest.map Tick.price) t0.price) with h | h
    · rw [h]; exact foldl_min_le _ _
    · exact foldl_min_le_mem _ _ _ h
  refine ⟨updFold (new_candle_of i t0.price (t0.volume.getD 0)) rest,
    by rw [hstate], g1, g5, g3, g4, ?_, ?_, ?_, ?_⟩
  · rw [g4, g1]; exact foldl_min_le _ _
  · rw [g1, g3]; exact le_foldl_max _ _
  · rw [g4, g5]; exact hclose_lo
  · rw [g5, g3]; exact hclose_hi

/-- Witness for C1 at a concrete two-tick sequence in bucket 0. -/
theorem same_bucket_fold_ohlc_witness :
    (∀ t ∈ tickA :: [tickB], tickInterval cfgB t = 0)
    ∧ ∃ c : Candle,
      (foldTicks cfgB (tickA :: [tickB])).current_candle = some c
      ∧ c.opn = tickA.price
      ∧ c.close = ([tickB].map Tick.price).getLastD tickA.price
      ∧ c.high = ([tickB].map Tick.price).foldl max tickA.price
      ∧ c.low = ([tickB].map Tick.price).foldl min tickA.price
      ∧ c.low ≤ c.opn ∧ c.opn ≤ c.high ∧ c.low ≤ c.close ∧ c.close ≤ c.high :=
  ⟨by decide, same_bucket_fold_ohlc cfgB tickA [tickB] 0 (by decide)⟩

/-- C4: a tick folded into the existing in-progress candle overwrites the
stored volume exactly when the tick volume is truthy (non-zero, non-null)
and leaves it unchanged otherwise, never summing; a tick that starts a new
candle seeds it with the tick volume, defaulting to 0 when falsy. -/
theorem volume_last_write_wins :
    ∀ (cfg : Config) (st : AggState) (c : Candle) (p : ℚ) (v : Option ℚ) (now : Nat),
      (st.current_interval =
          some (get_chart_timeframe_interval cfg.timeframe_minute cfg.tzOffset now) →
        st.current_candle = some c →
        (handle_data cfg st (mkQsd cfg.symbol (some p) v) now).1.current_candle.map Candle.volume
          = some (if v.getD 0 = 0 then c.volume else v.getD 0))
      ∧ (st.current_interval ≠
          some (get_chart_timeframe_interval cfg.timeframe_minute cfg.tzOffset now) →
        (handle_data cfg st (mkQsd cfg.symbol (some p) v) now).1.current_candle.map Candle.volume
          = some (v.getD 0)) := by
  intro cfg st c p v now
  constructor
  · intro hi hc
    have h := handle_step_update cfg st { price := p, volume := v, now := now } c hi hc
    have e : (handle_data cfg st (mkQsd cfg.symbol (some p) v) now).1
        = handle_step cfg st { price := p, volume := v, now := now } := rfl
    rw [e, h]
    by_cases h0 : v.getD 0 = 0
    · simp [update_candle, h0]
    · simp [update_candle, h0]
  · intro hi
    have h := handle_step_new cfg st { price := p, volume := v, now := now } hi
    have e : (handle_data cfg st (mkQsd cfg.symbol (some p) v) now).1
        = handle_step cfg st { price := p, volume := v, now := now } := rfl
    rw [e, h]
    by_cases h0 : v.getD 0 = 0
    · simp [new_candle_of, h0]
    · simp [new_candle_of, h0]

/-- Witness for C4: after the tick at second 100 stored volume 3, a
same-bucket tick at second 250 with zero volume leaves the stored volume
at 3. -/
theorem volume_last_write_wins_witness :
    (handle_data cfgB (foldTicks cfgB [tickA])
        (mkQsd cfgB.symbol (some 12) (some 0)) 250).1.current_candle.map Candle.volume
      = some 3 := by
  have h := (volume_last_write_wins cfgB (foldTicks cfgB [tickA]) (new_candle_of 0 10 3)
    12 (some 0) 250).1 (by decide) (by decide)
  simpa [new_candle_of] using h

theorem digitChar10_isDigit (k : Nat) (h : k < 10) : (digitChar10 k).isDigit = true := by
  simp only [digitChar10]
  interval_cases k <;> decide

theorem digitChar10_toNat (k : Nat) (h : k < 10) : (digitChar10 k).toNat = 48 + k := by
  simp only [digitChar10]
  interval_cases k <;> decide

theorem natToChars_ne_nil (n : Nat) : natToChars n ≠ [] := by
  rw [natToChars]
  split
  · simp
  · simp

theorem natToChars_all_digit (n : Nat) : ∀ c ∈ natToChars n, c.isDigit = true := by
  induction n using natToChars.induct with
  | case1 x hx =>
    intro c hc
    rw [natToChars, dif_pos hx] at hc
    simp only [List.mem_singleton] at hc
    subst hc
    exact digitChar10_isDigit x hx
  | case2 x hx ih =>
    intro c hc
    rw [natToChars, dif_neg hx] at hc
    rcases List.mem_append.mp hc with h | h
    · exact ih c h
    · simp only [List.mem_singleton] at h
      subst h
      exact digitChar10_isDigit _ (Nat.mod_lt _ (by omega))

theorem natToChars_ne_tilde (n : Nat) : ∀ c ∈ natToChars n, c ≠ '~' := by
  intro c hc he
  have hd := natToChars_all_digit n c hc
  subst he
  exact absurd hd (by decide)

theorem parse_foldl_natToChars (n : Nat) :
    (natToChars n).foldl (fun a c => a * 10 + (c.toNat - 48)) 0 = n := by
  induction n using natToChars.induct with
  | case1 x hx =>
    rw [natToChars, dif_pos hx]
    simp only [List.foldl]
    rw [digitChar10_toNat x hx]
    omega
  | case2 x hx ih =>
    rw [natToChars, dif_neg hx, List.foldl_append, ih]
    simp only [List.foldl]
    rw [digitChar10_toNat _ (Nat.mod_lt _ (by omega))]
    omega

theorem parseNatDigits_natToChars (n : Nat) : parseNatDigits (natToChars n) = some n := by
  rw [parseNatDigits, if_pos, parse_foldl_natToChars]
  refine ⟨natToChars_ne_nil n, ?_⟩
  rw [List.all_eq_true]
  intro c hc
  exact natToChars_all_digit n c hc

theorem partitionSep_cons (c : Char) (rest : List Char) :
    partitionSep (c :: rest) =
      if (c :: rest).take 3 = sepChars then ([], rest.drop 2)
      else (c :: (partitionSep rest).1, (partitionSep rest).2) := rfl

theorem partitionSep_marker (p : List Char) :
    ∀ pre : List Char, (∀ c ∈ pre, c ≠ '~') →
      partitionSep (pre ++ sepChars ++ p) = (pre, p) := by
  intro pre
  induction pre with
  | nil =>
    intro _
    show partitionSep ('~' :: 'm' :: '~' :: p) = ([], p)
    rw [partitionSep_cons, if_pos]
    · simp
    · simp [sepChars]
  | cons d ds ih =>
    intro h
    have hd : d ≠ '~' := h d (List.mem_cons_self _ _)
    have hds : ∀ c ∈ ds, c ≠ '~' := fun c hc => h c (List.mem_cons_of_mem _ hc)
    show partitionSep (d :: (ds ++ sepChars ++ p)) = (d :: ds, p)
    rw [partitionSep_cons, if_neg, ih hds]
    intro hc
    apply hd
    have h3 : (d :: (ds ++ sepChars ++ p)).take 3 = d :: (ds ++ sepChars ++ p).take 2 := rfl
    rw [h3, sepChars] at hc
    exact (List.cons_eq_cons.mp hc).1

theorem decode_encode (p : List Char) : decodeFrames (encodeFrame p) = ([p], []) := by
  have hpre : encodeFrame p = '~' :: 'm' :: '~' :: (natToChars p.length ++ (sepChars ++ p)) := by
    simp [encodeFrame, sepChars]
  rw [hpre, decodeFrames, dif_pos (by simp [sepChars])]
  have hdrop : ('~' :: 'm' :: '~' :: (natToChars p.length ++ (sepChars ++ p))).drop 3
      = natToChars p.length ++ sepChars ++ p := by
    simp
  rw [hdrop]
  simp only [partitionSep_marker p (natToChars p.length) (natToChars_ne_tilde _),
    parseNatDigits_natToChars, List.take_length, List.drop_length]
  rw [decodeFrames, dif_neg (by simp [sepChars])]

/-- C6: framing a payload and feeding the frame back through the message
chunk loop yields exactly that single payload with nothing left in the
buffer, for every payload; in particular the heartbeat payload round-trips
unchanged and is classified as a heartbeat.  The declared length field of
the constructed frame is the length of the payload by construction of
encodeFrame. -/
theorem frame_codec_roundtrip :
    (∀ payload : List Char, decodeFrames (encodeFrame payload) = ([payload], []))
    ∧ decodeFrames (encodeFrame ("~h~42".toList)) = ([("~h~42".toList)], [])
    ∧ isHeartbeat ("~h~42".toList) = true :=
  ⟨decode_encode, decode_encode _, by decide⟩

/-- Counterexample for C8: serving GET /candles does not leave the
aggregator state unchanged.  list(candle_window) shares the stored dicts,
so writing timestamp_ist stamps every stored candle (and the in-progress
one) in place: after one request the state differs. -/
theorem candles_endpoint_mutation_counterexample :
    (get_candle_window cfgB (foldTicks cfgB [tickA, tickC])).2
      ≠ foldTicks cfgB [tickA, tickC] := by decide

/-- C8 as amended: GET /candles answers the merged window (oldest to
newest, in-progress appended) reversed to newest first with the symbol and
timeframe metadata, and GET /prices answers the formatted merged window in
timestamp order; the /prices handler builds fresh records and does not
touch the state, and /candles preserves the window length, order and every
OHLCV and timestamp field, but it does add the timestamp_ist key to each
stored candle dict in place instead of copying defensively. -/
theorem snapshot_endpoints_amended :
    ∀ (cfg : Config) (st : AggState),
      (get_candle_window cfg st).1.symbol = cfg.symbol
      ∧ (get_candle_window cfg st).1.timeframe = cfg.timeframe_minute
      ∧ (get_candle_window cfg st).1.values = ((mergedCandles st).map addIst).reverse
      ∧ (get_candle_window cfg st).2.candle_window.map candle_data
          = st.candle_window.map candle_data
      ∧ (get_candle_window cfg st).2.current_candle.map candle_data
          = st.current_candle.map candle_data
      ∧ (get_candle_window cfg st).2.current_interval = st.current_interval
      ∧ (get_candle_window cfg st).2.candle_window.length = st.candle_window.length
      ∧ List.Pairwise (fun a b : ClientCandle => a.ts ≤ b.ts) (prices_snapshot st)
      ∧ (prices_snapshot st).Perm ((mergedCandles st).map format_candle_for_client) := by
  intro cfg st
  have htrans : ∀ a b c : ClientCandle, tsLe a b = true → tsLe b c = true → tsLe a c = true := by
    intro a b c hab hbc
    simp only [tsLe, decide_eq_true_eq] at *
    omega
  have htotal : ∀ a b : ClientCandle, (tsLe a b || tsLe b a) = true := by
    intro a b
    simp only [tsLe, Bool.or_eq_true, decide_eq_true_eq]
    exact Nat.le_total _ _
  refine ⟨rfl, rfl, rfl, ?_, ?_, rfl, by simp [get_candle_window], ?_, ?_⟩
  · simp only [get_candle_window, List.map_map]
    exact List.map_congr_left (fun a _ => rfl)
  · cases hc : st.current_candle <;>
      simp [get_candle_window, candle_data, addIst, hc]
  · have hs := List.sorted_mergeSort htrans htotal
      ((mergedCandles st).map format_candle_for_client)
    rw [prices_snapshot]
    exact List.Pairwise.imp (fun h => by simpa [tsLe] using h) hs
  · rw [prices_snapshot]
    exact List.mergeSort_perm _ _

theorem floored_wall_mono (tf : Nat) : ∀ w1 w2 : Nat, w1 ≤ w2 →
    w1 / 3600 * 3600 + (w1 / 60 % 60 - w1 / 60 % 60 % tf) * 60
      ≤ w2 / 3600 * 3600 + (w2 / 60 % 60 - w2 / 60 % 60 % tf) * 60 := by
  intro w1 w2 hw
  rcases Nat.lt_or_ge (w1 / 3600) (w2 / 3600) with hq | hq
  · have h1 : w1 / 60 % 60 - w1 / 60 % 60 % tf ≤ 59 :=
      le_trans (Nat.sub_le _ _) (by omega)
    generalize hx : w1 / 60 % 60 - w1 / 60 % 60 % tf = x at h1 ⊢
    generalize hy : w2 / 60 % 60 - w2 / 60 % 60 % tf = y
    omega
  · have heq : w1 / 3600 = w2 / 3600 := Nat.le_antisymm (Nat.div_le_div_right hw) hq
    have hdd1 : w1 / 60 / 60 = w1 / 3600 := by rw [Nat.div_div_eq_div_mul]
    have hdd2 : w2 / 60 / 60 = w2 / 3600 := by rw [Nat.div_div_eq_div_mul]
    have hu : w1 / 60 ≤ w2 / 60 := Nat.div_le_div_right hw
    have hm : w1 / 60 % 60 ≤ w2 / 60 % 60 := by omega
    have e1 : w1 / 60 % 60 - w1 / 60 % 60 % tf = tf * (w1 / 60 % 60 / tf) := by
      have h := Nat.div_add_mod (w1 / 60 % 60) tf
      generalize hA : tf * (w1 / 60 % 60 / tf) = A at h ⊢
      generalize hB : w1 / 60 % 60 % tf = B at h ⊢
      omega
    have e2 : w2 / 60 % 60 - w2 / 60 % 60 % tf = tf * (w2 / 60 % 60 / tf) := by
      have h := Nat.div_add_mod (w2 / 60 % 60) tf
      generalize hA : tf * (w2 / 60 % 60 / tf) = A at h ⊢
      generalize hB : w2 / 60 % 60 % tf = B at h ⊢
      omega
    have h4 : tf * (w1 / 60 % 60 / tf) ≤ tf * (w2 / 60 % 60 / tf) :=
      Nat.mul_le_mul_left tf (Nat.div_le_div_right hm)
    rw [e1, e2, heq]
    exact Nat.add_le_add_left (Nat.mul_le_mul_right 60 h4) _

theorem gcti_mono (tf o : Nat) : ∀ t1 t2 : Nat, t1 ≤ t2 →
    get_chart_timeframe_interval tf o t1 ≤ get_chart_timeframe_interval tf o t2 := by
  intro t1 t2 h
  exact Nat.sub_le_sub_right (floored_wall_mono tf (t1 + o) (t2 + o) (by omega)) o

theorem pushCandle_length_le (cap : Nat) (w : List Candle) (c : Candle) :
    (pushCandle cap w c).length ≤ cap := by
  simp only [pushCandle]
  split
  · simp only [List.length_drop]
    omega
  · next h =>
    simp only [List.length_append, List.length_singleton] at h ⊢
    omega

theorem pushCandle_sublist (cap : Nat) (w : List Candle) (c : Candle) :
    (pushCandle cap w c).Sublist (w ++ [c]) := by
  simp only [pushCandle]
  split
  · exact List.drop_sublist _ _
  · exact List.Sublist.refl _

theorem pushCandle_pairwise (cap : Nat) (w : List Candle) (c : Candle)
    (hw : List.Pairwise (fun a b : Candle => a.timestamp < b.timestamp) w)
    (hlt : ∀ x ∈ w, x.timestamp < c.timestamp) :
    List.Pairwise (fun a b : Candle => a.timestamp < b.timestamp) (pushCandle cap w c) := by
  apply List.Pairwise.sublist (pushCandle_sublist cap w c)
  rw [List.pairwise_append]
  refine ⟨hw, List.pairwise_singleton _ _, ?_⟩
  intro a ha b hb
  simp only [List.mem_singleton] at hb
  subst hb
  exact hlt a ha

theorem WInv_init (cfg : Config) (n : Nat) : WInv cfg initState n := by
  refine ⟨by simp [initState], by simp [initState], by simp [initState], ?_, ?_, fun _ => rfl⟩
  · intro c hc cc hcc
    simp [initState] at hc
  · intro cc hcc
    simp [initState] at hcc

theorem WInv_step (cfg : Config) (st : AggState) (t : Tick) (n : Nat)
    (hI : WInv cfg st n) (hn : n ≤ t.now) : WInv cfg (handle_step cfg st t) t.now := by
  obtain ⟨hlen, hpw, hint, hwl, hcb, hnone⟩ := hI
  have hmono := gcti_mono cfg.timeframe_minute cfg.tzOffset n t.now hn
  by_cases hi : st.current_interval = some (tickInterval cfg t)
  · rcases hcc : st.current_candle with _ | c
    · rw [hcc] at hint
      rw [hint] at hi
      simp at hi
    · have hcts : c.timestamp = tickInterval cfg t := by
        rw [hint, hcc] at hi
        simpa using hi
      rw [handle_step_update cfg st t c hi hcc]
      refine ⟨hlen, hpw, ?_, ?_, ?_, ?_⟩
      · rw [hint, hcc]
        rfl
      · intro d hd cc hcc2
        simp only [Option.some.injEq] at hcc2
        have : cc.timestamp = c.timestamp := by rw [← hcc2]; rfl
        rw [this]
        exact hwl d hd c hcc
      · intro cc hcc2
        simp only [Option.some.injEq] at hcc2
        have : cc.timestamp = c.timestamp := by rw [← hcc2]; rfl
        rw [this, hcts]
        exact le_refl _
      · intro h
        simp at h
  · rw [handle_step_new cfg st t hi]
    rcases hcc : st.current_candle with _ | c
    · have hw0 : st.candle_window = [] := hnone hcc
      refine ⟨?_, ?_, rfl, ?_, ?_, ?_⟩
      · simp only [hw0, List.length_nil]
        omega
      · simp [hw0]
      · intro d hd cc hcc2
        rw [hw0] at hd
        simp at hd
      · intro cc hcc2
        simp only [Option.some.injEq] at hcc2
        have : cc.timestamp = tickInterval cfg t := by rw [← hcc2]; rfl
        rw [this]
        exact le_refl _
      · intro h
        simp at h
    · have hct : c.timestamp ≤ get_chart_timeframe_interval cfg.timeframe_minute cfg.tzOffset n :=
        hcb c hcc
      have hcts : c.timestamp < tickInterval cfg t := by
        have hne : c.timestamp ≠ tickInterval cfg t := by
          intro he
          apply hi
          rw [hint, hcc]
          simp [he]
        have hle : c.timestamp ≤ tickInterval cfg t := le_trans hct hmono
        omega
      refine ⟨?_, ?_, rfl, ?_, ?_, ?_⟩
      · exact pushCandle_length_le _ _ _
      · exact pushCandle_pairwise _ _ _ hpw (fun x hx => hwl x hx c hcc)
      · intro d hd cc hcc2
        simp only [Option.some.injEq] at hcc2
        have hts : cc.timestamp = tickInterval cfg t := by rw [← hcc2]; rfl
        rw [hts]
        have hd2 : d ∈ st.candle_window ++ [c] := (pushCandle_sublist _ _ _).subset hd
        rcases List.mem_append.mp hd2 with h | h
        · exact lt_trans (hwl d h c hcc) hcts
        · simp only [List.mem_singleton] at h
          subst h
          exact hcts
      · intro cc hcc2
        simp only [Option.some.injEq] at hcc2
        have : cc.timestamp = tickInterval cfg t := by rw [← hcc2]; rfl
        rw [this]
        exact le_refl _
      · intro h
        simp at h

theorem WInv_fold (cfg : Config) :
    ∀ (ticks : List Tick) (st : AggState) (n : Nat),
      WInv cfg st n → (∀ t ∈ ticks.head?, n ≤ t.now) →
      List.Chain' (fun a b : Tick => a.now ≤ b.now) ticks →
      ∃ m : Nat, WInv cfg (ticks.foldl (handle_step cfg) st) m := by
  intro ticks
  induction ticks with
  | nil => intro st n hI _ _; exact ⟨n, hI⟩
  | cons t ts ih =>
    intro st n hI hh hc
    have hn : n ≤ t.now := hh t (by simp)
    have h1 := WInv_step cfg st t n hI hn
    rw [List.foldl_cons]
    have hcons := List.chain'_cons'.mp hc
    exact ih _ t.now h1 hcons.1 hcons.2

theorem handle_step_same_none (cfg : Config) (st : AggState) (t : Tick)
    (hi : st.current_interval = some (tickInterval cfg t))
    (hc : st.current_candle = none) : handle_step cfg st t = st := by
  simp only [handle_step, handle_data_valid_shape, tickInterval] at *
  rw [if_pos hi, hc]

theorem foldTicks_length_le (cfg : Config) :
    ∀ (ticks : List Tick) (st : AggState),
      st.candle_window.length ≤ cfg.max_candle_window_len →
      (ticks.foldl (handle_step cfg) st).candle_window.length
        ≤ cfg.max_candle_window_len := by
  intro ticks
  induction ticks with
  | nil => intro st h; exact h
  | cons t ts ih =>
    intro st h
    rw [List.foldl_cons]
    apply ih
    by_cases hi : st.current_interval = some (tickInterval cfg t)
    · rcases hcc : st.current_candle with _ | c
      · rw [handle_step_same_none cfg st t hi hcc]; exact h
      · rw [handle_step_update cfg st t c hi hcc]; exact h
    · rw [handle_step_new cfg st t hi]
      rcases hcc : st.current_candle with _ | c
      · simp only [hcc]; exact h
      · simp only [hcc]; exact pushCandle_length_le _ _ _

/-- C3: after any tick sequence from process start the finalized window
holds at most the configured capacity of candles, and over a non-decreasing
sequence its candles are in strictly increasing period-start order; a tick
whose bucket differs from the in-progress one appends that candle (evicting
the oldest, FIFO, exactly when the window is at capacity) and starts a new
candle seeded open = high = low = close = tick price; and the first tick
ever starts a fresh candle without finalizing anything. -/
theorem window_bounded_and_ordered (cfg : Config) (ticks : List Tick)
    (hmono : List.Chain' (fun a b : Tick => a.now ≤ b.now) ticks) :
    ((∀ anyTicks : List Tick,
        (foldTicks cfg anyTicks).candle_window.length ≤ cfg.max_candle_window_len)
      ∧ List.Pairwise (fun a b : Candle => a.timestamp < b.timestamp)
          (foldTicks cfg ticks).candle_window)
    ∧ (∀ (st : AggState) (c : Candle) (t : Tick),
        st.current_candle = some c →
        st.current_interval ≠ some (tickInterval cfg t) →
        (handle_step cfg st t).current_candle
            = some (new_candle_of (tickInterval cfg t) t.price (t.volume.getD 0))
        ∧ (st.candle_window.length < cfg.max_candle_window_len →
            (handle_step cfg st t).candle_window = st.candle_window ++ [c])
        ∧ (st.candle_window.length = cfg.max_candle_window_len →
            0 < cfg.max_candle_window_len →
            (handle_step cfg st t).candle_window = st.candle_window.tail ++ [c]))
    ∧ (∀ t : Tick,
        (handle_step cfg initState t).candle_window = []
        ∧ (handle_step cfg initState t).current_candle
            = some (new_candle_of (tickInterval cfg t) t.price (t.volume.getD 0))) := by
  refine ⟨?_, ?_, ?_⟩
  · obtain ⟨m, hI⟩ := WInv_fold cfg ticks initState 0 (WInv_init cfg 0)
      (fun t _ => Nat.zero_le _) hmono
    refine ⟨?_, hI.2.1⟩
    intro anyTicks
    exact foldTicks_length_le cfg anyTicks initState (by simp [initState])
  · intro st c t hc hi
    rw [handle_step_new cfg st t hi]
    refine ⟨rfl, ?_, ?_⟩
    · intro hlt
      simp only [hc, pushCandle]
      rw [if_neg]
      simp only [List.length_append, List.length_singleton]
      omega
    · intro heq hpos
      simp only [hc, pushCandle]
      rw [if_pos (by simp only [List.length_append, List.length_singleton]; omega)]
      have h1 : (st.candle_window ++ [c]).length - cfg.max_candle_window_len = 1 := by
        simp only [List.length_append, List.length_singleton]
        omega
      rw [h1, List.drop_append_of_le_length (by omega), List.drop_one]
  · intro t
    rw [handle_step_fresh cfg t]
    exact ⟨rfl, rfl⟩

/-- Witness for C3 at a concrete non-decreasing three-tick run crossing
one bucket boundary. -/
theorem window_bounded_and_ordered_witness :
    ((∀ anyTicks : List Tick,
        (foldTicks cfgB anyTicks).candle_window.length ≤ cfgB.max_candle_window_len)
      ∧ List.Pairwise (fun a b : Candle => a.timestamp < b.timestamp)
          (foldTicks cfgB [tickA, tickB, tickC]).candle_window)
    ∧ (∀ (st : AggState) (c : Candle) (t : Tick),
        st.current_candle = some c →
        st.current_interval ≠ some (tickInterval cfgB t) →
        (handle_step cfgB st t).current_candle
            = some (new_candle_of (tickInterval cfgB t) t.price (t.volume.getD 0))
        ∧ (st.candle_window.length < cfgB.max_candle_window_len →
            (handle_step cfgB st t).candle_window = st.candle_window ++ [c])
        ∧ (st.candle_window.length = cfgB.max_candle_window_len →
            0 < cfgB.max_candle_window_len →
            (handle_step cfgB st t).candle_window = st.candle_window.tail ++ [c]))
    ∧ (∀ t : Tick,
        (handle_step cfgB initState t).candle_window = []
        ∧ (handle_step cfgB initState t).current_candle
            = some (new_candle_of (tickInterval cfgB t) t.price (t.volume.getD 0))) :=
  window_bounded_and_ordered cfgB [tickA, tickB, tickC]
    (by norm_num [List.chain'_cons, List.chain'_singleton, tickA, tickB, tickC])
